import Mathlib

/-!
Shallow embedding of the LSparrow statistical analysis core.

The embedding covers `app/services/statistics.py` (`StatisticsCalculator`)
and `app/services/csv_processor.py` (`CSVProcessor`).

Modelling conventions:
* A table cell is `Cell.num q` when its CSV token parses as a number
  (so `pd.to_numeric` yields that number), `Cell.str s` when the token is
  genuinely non-numeric text (so the column has object dtype and
  `pd.to_numeric(..., errors="coerce")` yields NaN for it), and
  `Cell.missing` for an empty cell / NaN.  A pandas column has a numeric
  dtype exactly when it contains no `Cell.str` cell (an all-missing column
  is read as float64, hence numeric dtype).
* Floating-point numbers are modelled by exact rationals `ℚ`.  The sample
  standard deviation `np.std(_, ddof=1)` is the square root of the Bessel
  variance; since square roots are irrational we carry the variance
  symbolically (`SDVal.sqrtOf v` denotes the value `sqrt v`, to which the
  source applies `round(_, 3)` for display).  For `N = 1` numpy's
  `std(ddof=1)` divides by zero and returns NaN, modelled by `SDVal.nan`.
* The scipy calls `stats.skew`, `stats.kurtosis` and `stats.kstest` are
  external library functions; the claims only depend on whether their
  (rounded) results appear as a number or as the placeholder "-", so the
  corresponding record fields are modelled by `GVal.defined` / `GVal.undef`.
  The source's `np.isfinite` post-checks are embedded exactly: scipy's
  skewness `m3 / m2^1.5` and excess kurtosis `m4 / m2^2 - 3` are finite
  exactly when the population variance `m2` is nonzero, and the KS statistic
  and p-value always lie in `[0, 1]`, hence are always finite.
-/

inductive Cell where
  | str (s : String)
  | num (q : ℚ)
  | missing
deriving DecidableEq

def Cell.isMissing : Cell → Bool
  | Cell.missing => true
  | _ => false

def Cell.isStr : Cell → Bool
  | Cell.str _ => true
  | _ => false

/-- Numeric coercion of one cell, as `pd.to_numeric(..., errors="coerce")`
acts on it: numeric tokens keep their value, everything else becomes
missing (NaN). -/
def coerceCell : Cell → Option ℚ
  | Cell.num q => some q
  | _ => none

/-- Column-wise `pd.to_numeric(series, errors="coerce")`. -/
def to_numeric (series : List Cell) : List (Option ℚ) := series.map coerceCell

/-- A loaded dataframe: a header of column names and a list of rows. -/
structure Table where
  header : List String
  rows : List (List Cell)
deriving DecidableEq

/-- Number of rows, `len(df)`. -/
def Table.nrows (t : Table) : ℕ := t.rows.length

/-- Column access `df[name]`: the cells of the (first) column called
`name`, in row order. -/
def Table.col (t : Table) (name : String) : List Cell :=
  match t.header.findIdx? (fun h => decide (h = name)) with
  | some i => t.rows.map (fun r => r.getD i Cell.missing)
  | none => []

/-- Row selection `df[df[name] == v]`.  NaN compares unequal to everything
in pandas, which agrees with `Cell.missing ≠ v` for the non-missing `v`
this is called with. -/
def Table.filterByValue (t : Table) (name : String) (v : Cell) : Table :=
  match t.header.findIdx? (fun h => decide (h = name)) with
  | some i =>
      { header := t.header
        rows := t.rows.filter (fun r => decide (r.getD i Cell.missing = v)) }
  | none => { header := t.header, rows := [] }

/-! ### Statistics engine (`StatisticsCalculator`) -/

/-- Arithmetic mean `np.mean`. -/
def qmean (xs : List ℚ) : ℚ := xs.sum / xs.length

def insertQ (a : ℚ) : List ℚ → List ℚ
  | [] => [a]
  | b :: l => if a ≤ b then a :: b :: l else b :: insertQ a l

def sortQ (l : List ℚ) : List ℚ := l.foldr insertQ []

/-- Median `np.median`: middle element for odd length, average of the two
middle elements for even length. -/
def qmedian (xs : List ℚ) : ℚ :=
  let s := sortQ xs
  if s.length % 2 = 1 then s.getD (s.length / 2) 0
  else (s.getD (s.length / 2 - 1) 0 + s.getD (s.length / 2) 0) / 2

/-- Sum of squared deviations from the mean. -/
def sumSqDev (xs : List ℚ) : ℚ := (xs.map (fun x => (x - qmean xs) ^ 2)).sum

/-- Bessel-corrected sample variance, the square of
`np.std(xs, ddof=1)` (meaningful for `2 ≤ xs.length`). -/
def besselVar (xs : List ℚ) : ℚ := sumSqDev xs / ((xs.length : ℚ) - 1)

/-- Population variance `m2`, the second central moment used by scipy's
skewness and kurtosis. -/
def popVar (xs : List ℚ) : ℚ := sumSqDev xs / (xs.length : ℚ)

/-- The source's epsilon `1e-10` guarding the higher moments. -/
def eps : ℚ := 1 / 10 ^ 10

/-- The source's gate `std > 1e-10`.  For `n ≥ 2` the standard deviation is
`sqrt (besselVar xs) > eps` iff `besselVar xs > eps ^ 2`; for `n = 1` the
standard deviation is NaN and the Python comparison `nan > 1e-10` is false. -/
def stdGtEps (xs : List ℚ) : Prop := 2 ≤ xs.length ∧ eps ^ 2 < besselVar xs

instance (xs : List ℚ) : Decidable (stdGtEps xs) := by
  unfold stdGtEps; infer_instance

/-- Floor of a rational, computed on the reduced numerator and
denominator by flooring integer division. -/
def ratFloor (q : ℚ) : ℤ := Int.fdiv q.num q.den

/-- Rounding to three decimal digits, `round(q, 3)` (banker's rounding on
the exact rational value). -/
def round3 (q : ℚ) : ℚ :=
  let t := q * 1000
  let f : ℤ := ratFloor t
  let frac : ℚ := t - (f : ℚ)
  let r : ℤ :=
    if frac < 1 / 2 then f
    else if 1 / 2 < frac then f + 1
    else if f % 2 = 0 then f else f + 1
  (r : ℚ) / 1000

/-- The `SD` field of the record.  The source stores
`round(np.std(valid, ddof=1), 3)` with no finiteness check, so for
`N = 1` the NaN produced by the zero-denominator Bessel division flows
straight into the record.  `SDVal.sqrtOf v` denotes the rounded square
root of the variance `v`. -/
inductive SDVal where
  | nan
  | sqrtOf (v : ℚ)
deriving DecidableEq

/-- A gated field of the record: either a (finite, rounded) number or
the placeholder "-". -/
inductive GVal where
  | undef
  | defined
deriving DecidableEq

/-- The spec's comparison `SampleStdDev > 1e-10` read off the record's SD
field: false for NaN (as in Python), and `sqrt v > eps ↔ eps ^ 2 < v` for
the symbolic square root (`v ≥ 0` always holds for a sum of squares). -/
def SDVal.gtEps : SDVal → Prop
  | SDVal.nan => False
  | SDVal.sqrtOf v => eps ^ 2 < v

/-- The dictionary returned by `StatisticsCalculator.calculate`. -/
structure StatRecord where
  N : ℕ
  AS : ℚ
  SD : SDVal
  Median : ℚ
  Ske : GVal
  Kur : GVal
  MaxD : GVal
  KSp : GVal
deriving DecidableEq

/-- The filter `data[(data >= 1) & (data <= 5)].dropna()`: missing entries
and out-of-range values are dropped (NaN compares false against the range
bounds, so `dropna` is already subsumed). -/
def filterValid (data : List (Option ℚ)) : List ℚ :=
  data.filterMap (fun o => o.bind (fun x => if 1 ≤ x ∧ x ≤ 5 then some x else none))

/-- `StatisticsCalculator.calculate`.  Returns `none` when the filtered
sample is empty.  The skewness / kurtosis fields embed the source's
`np.isfinite` checks: under the `std` gate scipy's values are finite iff
the population variance is nonzero; the KS statistic is always finite. -/
def calculate (data : List (Option ℚ)) : Option StatRecord :=
  let valid := filterValid data
  if valid.length = 0 then none
  else some
    { N := valid.length
      AS := round3 (qmean valid)
      SD := if 2 ≤ valid.length then SDVal.sqrtOf (besselVar valid) else SDVal.nan
      Median := round3 (qmedian valid)
      Ske :=
        if 3 ≤ valid.length ∧ stdGtEps valid then
          (if popVar valid = 0 then GVal.undef else GVal.defined)
        else GVal.undef
      Kur :=
        if 4 ≤ valid.length ∧ stdGtEps valid then
          (if popVar valid = 0 then GVal.undef else GVal.defined)
        else GVal.undef
      MaxD := if 5 ≤ valid.length ∧ stdGtEps valid then GVal.defined else GVal.undef
      KSp := if 5 ≤ valid.length ∧ stdGtEps valid then GVal.defined else GVal.undef }

/-- `StatisticsCalculator.is_likert_column`. -/
def is_likert_column (series : List Cell) : Bool :=
  let valid_values := (to_numeric series).filterMap id
  if valid_values.length = 0 then false
  else
    let unique_values := valid_values.dedup
    unique_values.all (fun v => decide (1 ≤ v) && decide (v ≤ 5)) &&
      decide (unique_values.length ≤ 5)

/-! ### CSV processor (`CSVProcessor`) -/

/-- `CSVProcessor._find_likert_columns`. -/
def find_likert_columns (t : Table) : List String :=
  t.header.filter (fun column => is_likert_column (t.col column))

/-- `CSVProcessor._is_categorical_column`: the column dtype is not
numeric.  Under the cell conventions above, the dtype is numeric exactly
when no cell is a non-numeric text token (an all-missing column is
float64, hence numeric). -/
def is_categorical_column (col : List Cell) : Bool := col.any Cell.isStr

/-- The textual form of a cell, `series.astype(str)`.  The exact digits of
the numeric rendering are irrelevant here: a rendered number never
contains a semicolon. -/
def cellStr : Cell → String
  | Cell.str s => s
  | Cell.num q => toString q
  | Cell.missing => "nan"

/-- `CSVProcessor._is_multiselect_column` with the default threshold 0.1. -/
def is_multiselect_column (col : List Cell) : Bool :=
  let non_null := col.filter (fun c => !c.isMissing)
  if non_null.length = 0 then false
  else
    decide ((1 : ℚ) / 10 <
      ((non_null.filter (fun c => (cellStr c).data.contains ';')).length : ℚ) / non_null.length)

/-- `CSVProcessor._is_unique_per_row` with the default threshold 0.9
(`nunique` counts distinct non-null values). -/
def is_unique_per_row (col : List Cell) : Bool :=
  let non_null := col.filter (fun c => !c.isMissing)
  if non_null.length = 0 then true
  else decide ((9 : ℚ) / 10 ≤ (non_null.dedup.length : ℚ) / non_null.length)

/-- `CSVProcessor.detect_groupable_columns` (after `_read_csv`). -/
def detect_groupable_columns (t : Table) : List String :=
  if t.nrows ≤ 1 then []
  else
    let likert_columns := find_likert_columns t
    t.header.filter (fun col =>
      !decide (col ∈ likert_columns) &&
      is_categorical_column (t.col col) &&
      !is_multiselect_column (t.col col) &&
      !is_unique_per_row (t.col col))

/-- One shared question loop: run `calculate` on the numeric coercion of
each Likert column of `t` and keep the `(question, record)` pairs whose
record is non-empty.  Both `_calculate_overall_statistics` and the inner
loop of `_calculate_group_statistics` are this very loop. -/
def questionStats (t : Table) (likert_columns : List String) :
    List (String × StatRecord) :=
  likert_columns.filterMap (fun column =>
    (calculate (to_numeric (t.col column))).map (fun r => (column, r)))

/-- `series.dropna().unique().tolist()`: distinct non-missing values in
first-occurrence order. -/
def uniqueFirstAux (seen : List Cell) : List Cell → List Cell
  | [] => []
  | a :: l => if a ∈ seen then uniqueFirstAux seen l else a :: uniqueFirstAux (a :: seen) l

def nonNullUnique (col : List Cell) : List Cell :=
  uniqueFirstAux [] (col.filter (fun c => !c.isMissing))

/-- Lexicographic order on code points, which is how Python compares the
strings `str(value)` produced by the sort key. -/
def charListLe : List Char → List Char → Bool
  | [], _ => true
  | _ :: _, [] => false
  | x :: xs, y :: ys =>
    if x.toNat < y.toNat then true
    else if y.toNat < x.toNat then false
    else charListLe xs ys

/-- Insertion sort by the textual key, `sorted(values, key=str)`. -/
def insertSorted (a : Cell) : List Cell → List Cell
  | [] => [a]
  | b :: l =>
    if charListLe (cellStr a).data (cellStr b).data then a :: b :: l
    else b :: insertSorted a l

def sortByKey (l : List Cell) : List Cell := l.foldr insertSorted []

/-- The value of `available_groupings[group_key]`. -/
structure GroupingDescriptor where
  label : String
  column : String
  values : List Cell
deriving DecidableEq

/-- `CSVProcessor._calculate_group_statistics`: per group value, the
records over the partition `df[df[group_col] == value]`; values whose
record list is empty are omitted. -/
def calc_group_statistics (t : Table) (group_col : String)
    (unique_values : List Cell) (likert_columns : List String) :
    List (Cell × List (String × StatRecord)) :=
  unique_values.filterMap (fun value =>
    let group_stats := questionStats (t.filterByValue group_col value) likert_columns
    if group_stats.isEmpty then none else some (value, group_stats))

/-- The loop body of `_calculate_grouped_statistics`, recursing over the
enumerated selected columns (Python dict insertion order = list order). -/
def calcGroupedAux (t : Table) (likert_columns : List String) :
    List (ℕ × String) →
      List (String × List (Cell × List (String × StatRecord))) ×
        List (String × GroupingDescriptor)
  | [] => ([], [])
  | (idx, col_name) :: rest =>
    let tail := calcGroupedAux t likert_columns rest
    if col_name ∈ t.header then
      let unique_values := nonNullUnique (t.col col_name)
      if unique_values.isEmpty then tail
      else
        let group_key := "group_" ++ toString idx
        ((group_key, calc_group_statistics t col_name unique_values likert_columns) :: tail.1,
         (group_key,
           { label := col_name, column := col_name,
             values := sortByKey unique_values }) :: tail.2)
    else tail

/-- `CSVProcessor._calculate_grouped_statistics`. -/
def calc_grouped_statistics (t : Table) (likert_columns : List String)
    (selected_columns : List String) :
    List (String × List (Cell × List (String × StatRecord))) ×
      List (String × GroupingDescriptor) :=
  calcGroupedAux t likert_columns selected_columns.enum

/-- The result dictionary of `CSVProcessor.process`. -/
structure AnalysisResult where
  overall : List (String × StatRecord)
  grouped : List (String × List (Cell × List (String × StatRecord)))
  groupings : List (String × GroupingDescriptor)
deriving DecidableEq

/-- `CSVProcessor.process` (after `_read_csv`). -/
def process (t : Table) (selected_grouping_columns : List String) : AnalysisResult :=
  let likert_columns := find_likert_columns t
  let gg := calc_grouped_statistics t likert_columns selected_grouping_columns
  { overall := questionStats t likert_columns
    grouped := gg.1
    groupings := gg.2 }

/-! ### Table loader (`CSVProcessor._read_csv`) -/

inductive Enc where
  | utf8
  | utf8sig
  | latin1
  | cp1250
  | cp1252
deriving DecidableEq

/-- `CSVProcessor.SUPPORTED_ENCODINGS`. -/
def SUPPORTED_ENCODINGS : List Enc := [Enc.utf8, Enc.utf8sig, Enc.latin1, Enc.cp1250, Enc.cp1252]

inductive CsvError where
  | unsupportedEncoding
deriving DecidableEq

/-- The loop of `_read_csv` over a list of encodings.  The library call
`pd.read_csv(file, encoding=e)` on the fixed input bytes is abstracted as
a function `tryParse : Enc → Option Table` (`none` = the attempt raised). -/
def readCsvAux (tryParse : Enc → Option Table) : List Enc → Except CsvError Table
  | [] => Except.error CsvError.unsupportedEncoding
  | e :: rest =>
    match tryParse e with
    | some t => Except.ok t
    | none => readCsvAux tryParse rest

/-- `CSVProcessor._read_csv`: try each supported encoding in order, first
success wins, raise `UnsupportedEncodingError` if all fail. -/
def read_csv (tryParse : Enc → Option Table) : Except CsvError Table :=
  readCsvAux tryParse SUPPORTED_ENCODINGS

/-! ### Concrete example tables used by the claims -/

/-- Two rows; the "g" column has a single distinct value "A" occurring in
exactly one non-missing cell. -/
def ex5 : Table :=
  { header := ["g", "q"]
    rows := [[Cell.str "A", Cell.num 1], [Cell.missing, Cell.num 2]] }

/-- Variant of `ex5` whose single distinct value occurs in two cells. -/
def ex5w : Table :=
  { header := ["g", "q"]
    rows := [[Cell.str "A", Cell.num 1], [Cell.str "A", Cell.num 2]] }

/-- Grouping column "g" with values A, A, B over two Likert questions. -/
def ex7 : Table :=
  { header := ["g", "q1", "q2"]
    rows := [[Cell.str "A", Cell.num 1, Cell.num 2],
             [Cell.str "A", Cell.num 2, Cell.num 3],
             [Cell.str "B", Cell.num 5, Cell.num 4]] }

/-- The two rows of `ex7` whose "g" value is "A". -/
def ex7A : Table :=
  { header := ["g", "q1", "q2"]
    rows := [[Cell.str "A", Cell.num 1, Cell.num 2],
             [Cell.str "A", Cell.num 2, Cell.num 3]] }

/-- The row of `ex7` whose "g" value is "B". -/
def ex7B : Table :=
  { header := ["g", "q1", "q2"]
    rows := [[Cell.str "B", Cell.num 5, Cell.num 4]] }

/-- A table with no Likert column at all. -/
def ex8 : Table :=
  { header := ["name"], rows := [[Cell.str "x"]] }

/-- A table whose only column is entirely missing. -/
def ex9 : Table :=
  { header := ["m"], rows := [[Cell.missing], [Cell.missing]] }

/-! ### Helper lemmas -/

theorem mem_filterMap_toNumeric (series : List Cell) (q : ℚ) (h : Cell.num q ∈ series) :
    q ∈ (to_numeric series).filterMap id := by
  rw [List.mem_filterMap]
  refine ⟨some q, ?_, rfl⟩
  rw [to_numeric, List.mem_map]
  exact ⟨Cell.num q, h, rfl⟩

/-! ### Claim theorems -/

unseal Rat.mul Rat.add Rat.sub Rat.inv in
/-- C1: the claim reads that every mathematically undefined field of a
record produced by `Statistics.compute` is the placeholder "-", and in
particular the `SD` field for a filtered sample of size one.  The code
disagrees: `round(np.std(valid, ddof=1), 3)` is stored without any
finiteness check, and for `N = 1` the Bessel division by `N - 1 = 0`
yields NaN, which flows into the record.  On the sample `[3]` the code
produces `SD = NaN` (here `SDVal.nan`), not "-". -/
theorem claim_C1_sd_nan_at_n1 :
    calculate [some 3] =
      some { N := 1, AS := 3, SD := SDVal.nan, Median := 3,
             Ske := GVal.undef, Kur := GVal.undef, MaxD := GVal.undef, KSp := GVal.undef } := by
  decide

/-- C3: `calculate` filters its sample to `[1, 5]`, dropping missing and
out-of-range entries, and returns no record iff that filtered sample is
empty; in particular an all-out-of-range sample (all values 9) yields no
record. -/
theorem claim_C3_empty_filter :
    (∀ data : List (Option ℚ), calculate data = none ↔ filterValid data = []) ∧
    calculate [some 9, some 9, some 9] = none := by
  constructor
  · intro data
    simp only [calculate]
    by_cases h0 : (filterValid data).length = 0
    · rw [if_pos h0]
      simp [List.length_eq_zero.mp h0]
    · rw [if_neg h0]
      constructor
      · intro h; exact (Option.some_ne_none _ h).elim
      · intro h; exact absurd (by rw [h]; rfl) h0
  · decide

/-- C2: `is_likert_column` holds iff, after numeric coercion, the column
has at least one non-missing value, every distinct non-missing value lies
in `[1, 5]`, and there are at most 5 distinct non-missing values;
consequently a column containing the value 6 is not Likert, and a column
with six distinct values is not Likert. -/
theorem claim_C2_likert_iff :
    (∀ series : List Cell,
        is_likert_column series = true ↔
          ((to_numeric series).filterMap id ≠ [] ∧
           (∀ v ∈ (to_numeric series).filterMap id, 1 ≤ v ∧ v ≤ 5) ∧
           ((to_numeric series).filterMap id).toFinset.card ≤ 5)) ∧
    (∀ series : List Cell, Cell.num 6 ∈ series → is_likert_column series = false) ∧
    (∀ series : List Cell, 5 < ((to_numeric series).filterMap id).toFinset.card →
        is_likert_column series = false) := by
  have hmain : ∀ series : List Cell,
      is_likert_column series = true ↔
        ((to_numeric series).filterMap id ≠ [] ∧
         (∀ v ∈ (to_numeric series).filterMap id, 1 ≤ v ∧ v ≤ 5) ∧
         ((to_numeric series).filterMap id).toFinset.card ≤ 5) := by
    intro series
    simp only [is_likert_column]
    by_cases h0 : ((to_numeric series).filterMap id).length = 0
    · rw [if_pos h0]
      simp [List.length_eq_zero.mp h0]
    · rw [if_neg h0]
      have hne : (to_numeric series).filterMap id ≠ [] := by
        intro h; exact h0 (by rw [h]; rfl)
      simp only [Bool.and_eq_true, List.all_eq_true, List.mem_dedup, decide_eq_true_eq,
        List.card_toFinset, hne, ne_eq, not_false_eq_true, true_and]
  refine ⟨hmain, ?_, ?_⟩
  · intro series h6
    cases hb : is_likert_column series
    · rfl
    · exfalso
      have := ((hmain series).mp hb).2.1 6 (mem_filterMap_toNumeric series 6 h6)
      have h65 : ¬ ((6 : ℚ) ≤ 5) := by norm_num
      exact h65 this.2
  · intro series hcard
    cases hb : is_likert_column series
    · rfl
    · exfalso
      have := ((hmain series).mp hb).2.2
      omega

theorem popVar_pos (xs : List ℚ) (h2 : 2 ≤ xs.length) (hb : eps ^ 2 < besselVar xs) :
    0 < popVar xs := by
  have heps : (0 : ℚ) < eps ^ 2 := by norm_num [eps]
  have hb0 : 0 < besselVar xs := lt_trans heps hb
  have hn1 : (0 : ℚ) < (xs.length : ℚ) - 1 := by
    have h2q : (2 : ℚ) ≤ (xs.length : ℚ) := by exact_mod_cast h2
    linarith
  have hS : 0 < sumSqDev xs := by
    unfold besselVar at hb0
    rcases div_pos_iff.mp hb0 with ⟨hS, _⟩ | ⟨_, hneg⟩
    · exact hS
    · linarith
  have hlen : (0 : ℚ) < (xs.length : ℚ) := by linarith
  unfold popVar
  exact div_pos hS hlen

unseal Rat.mul Rat.add Rat.sub Rat.inv in
/-- C4: in every record produced by `calculate`, skewness is a number
exactly when `N ≥ 3` and the sample standard deviation exceeds `1e-10`,
kurtosis exactly when `N ≥ 4` with the same gate, and the two KS fields
exactly when `N ≥ 5` with the same gate (the finiteness post-check never
demotes a value once the gate holds, because the gate forces a nonzero
population variance); and on the sample `[3, 3, 3]` all four gated fields
are "-" while Mean = 3.0, Median = 3.0 and the standard deviation is 0. -/
theorem claim_C4_gating :
    (∀ (data : List (Option ℚ)) (r : StatRecord), calculate data = some r →
        ((r.Ske = GVal.defined ↔ 3 ≤ r.N ∧ r.SD.gtEps) ∧
         (r.Kur = GVal.defined ↔ 4 ≤ r.N ∧ r.SD.gtEps) ∧
         (r.MaxD = GVal.defined ↔ 5 ≤ r.N ∧ r.SD.gtEps) ∧
         (r.KSp = GVal.defined ↔ 5 ≤ r.N ∧ r.SD.gtEps))) ∧
    calculate [some 3, some 3, some 3] =
      some { N := 3, AS := 3, SD := SDVal.sqrtOf 0, Median := 3,
             Ske := GVal.undef, Kur := GVal.undef, MaxD := GVal.undef, KSp := GVal.undef } := by
  constructor
  · intro data r h
    simp only [calculate] at h
    by_cases h0 : (filterValid data).length = 0
    · rw [if_pos h0] at h
      exact absurd h (by simp)
    · rw [if_neg h0] at h
      injection h with h
      subst h
      set valid := filterValid data with hvdef
      have hsd : (if 2 ≤ valid.length then SDVal.sqrtOf (besselVar valid) else SDVal.nan).gtEps
          ↔ stdGtEps valid := by
        by_cases h2 : 2 ≤ valid.length
        · simp [h2, SDVal.gtEps, stdGtEps]
        · simp [h2, SDVal.gtEps, stdGtEps]
      refine ⟨?_, ?_, ?_, ?_⟩
      · show (if 3 ≤ valid.length ∧ stdGtEps valid then
            (if popVar valid = 0 then GVal.undef else GVal.defined)
          else GVal.undef) = GVal.defined ↔ 3 ≤ valid.length ∧ _
        rw [hsd]
        by_cases hg : 3 ≤ valid.length ∧ stdGtEps valid
        · have hpv : popVar valid ≠ 0 := ne_of_gt (popVar_pos valid hg.2.1 hg.2.2)
          rw [if_pos hg, if_neg hpv]
          exact iff_of_true rfl hg
        · rw [if_neg hg]
          exact iff_of_false (by simp) hg
      · show (if 4 ≤ valid.length ∧ stdGtEps valid then
            (if popVar valid = 0 then GVal.undef else GVal.defined)
          else GVal.undef) = GVal.defined ↔ 4 ≤ valid.length ∧ _
        rw [hsd]
        by_cases hg : 4 ≤ valid.length ∧ stdGtEps valid
        · have hpv : popVar valid ≠ 0 := ne_of_gt (popVar_pos valid hg.2.1 hg.2.2)
          rw [if_pos hg, if_neg hpv]
          exact iff_of_true rfl hg
        · rw [if_neg hg]
          exact iff_of_false (by simp) hg
      · show (if 5 ≤ valid.length ∧ stdGtEps valid then GVal.defined else GVal.undef)
            = GVal.defined ↔ 5 ≤ valid.length ∧ _
        rw [hsd]
        by_cases hg : 5 ≤ valid.length ∧ stdGtEps valid
        · rw [if_pos hg]
          exact iff_of_true rfl hg
        · rw [if_neg hg]
          exact iff_of_false (by simp) hg
      · show (if 5 ≤ valid.length ∧ stdGtEps valid then GVal.defined else GVal.undef)
            = GVal.defined ↔ 5 ≤ valid.length ∧ _
        rw [hsd]
        by_cases hg : 5 ≤ valid.length ∧ stdGtEps valid
        · rw [if_pos hg]
          exact iff_of_true rfl hg
        · rw [if_neg hg]
          exact iff_of_false (by simp) hg
  · decide

unseal Rat.mul Rat.add Rat.sub Rat.inv in
/-- Witness for C4: the sample `[1, 2, 3, 4, 5]` passes every gate, so all
four gated fields are numbers. -/
theorem claim_C4_witness :
    let r : StatRecord :=
      { N := 5, AS := 3, SD := SDVal.sqrtOf (5 / 2), Median := 3,
        Ske := GVal.defined, Kur := GVal.defined, MaxD := GVal.defined, KSp := GVal.defined }
    (r.Ske = GVal.defined ↔ 3 ≤ r.N ∧ r.SD.gtEps) ∧
    (r.Kur = GVal.defined ↔ 4 ≤ r.N ∧ r.SD.gtEps) ∧
    (r.MaxD = GVal.defined ↔ 5 ≤ r.N ∧ r.SD.gtEps) ∧
    (r.KSp = GVal.defined ↔ 5 ≤ r.N ∧ r.SD.gtEps) :=
  claim_C4_gating.1 [some 1, some 2, some 3, some 4, some 5] _ (by decide)

unseal Rat.mul Rat.add Rat.sub Rat.inv in
/-- C5 counterexample: the claim states that any non-Likert, non-numeric,
non-multiselect column with exactly one distinct non-missing value is
groupable whenever the table has more than one row.  The column "g" of
`ex5` satisfies all of that — its one distinct value "A" occurs in a
single non-missing cell — yet the uniqueness-ratio test computes
`1 / 1 = 1.0 ≥ 0.9` and excludes it, so `detect_groupable_columns`
does not return it. -/
theorem claim_C5_counterexample :
    1 < ex5.nrows ∧
    "g" ∉ find_likert_columns ex5 ∧
    is_categorical_column (ex5.col "g") = true ∧
    is_multiselect_column (ex5.col "g") = false ∧
    ((ex5.col "g").filter (fun c => !c.isMissing)).dedup.length = 1 ∧
    "g" ∉ detect_groupable_columns ex5 := by
  decide

/-- C5 amended: a column that is not Likert, not of numeric type, not
multi-select, and has exactly one distinct non-missing value occurring in
at least two non-missing cells is included by `detect_groupable_columns`
for every table with more than one row (with at least two non-missing
occurrences the distinct/non-missing ratio is at most 1/2 < 0.9, so the
near-unique exclusion cannot fire). -/
theorem claim_C5_amended (t : Table) (name : String)
    (hrows : 1 < t.nrows)
    (hmem : name ∈ t.header)
    (hlik : name ∉ find_likert_columns t)
    (hcat : is_categorical_column (t.col name) = true)
    (hms : is_multiselect_column (t.col name) = false)
    (huniq : ((t.col name).filter (fun c => !c.isMissing)).dedup.length = 1)
    (hcount : 2 ≤ ((t.col name).filter (fun c => !c.isMissing)).length) :
    name ∈ detect_groupable_columns t := by
  unfold detect_groupable_columns
  rw [if_neg (by omega : ¬ t.nrows ≤ 1)]
  apply List.mem_filter.mpr
  refine ⟨hmem, ?_⟩
  have hup : is_unique_per_row (t.col name) = false := by
    unfold is_unique_per_row
    rw [if_neg (by omega : ¬ ((t.col name).filter (fun c => !c.isMissing)).length = 0)]
    rw [decide_eq_false_iff_not, not_le, huniq]
    have hlen : (2 : ℚ) ≤ (((t.col name).filter (fun c => !c.isMissing)).length : ℚ) := by
      exact_mod_cast hcount
    have hpos : (0 : ℚ) < (((t.col name).filter (fun c => !c.isMissing)).length : ℚ) := by
      linarith
    rw [div_lt_iff₀ hpos]
    push_cast
    nlinarith
  simp only [Bool.and_eq_true, Bool.not_eq_true', decide_eq_false_iff_not]
  exact ⟨⟨⟨hlik, hcat⟩, hms⟩, hup⟩

unseal Rat.mul Rat.add Rat.sub Rat.inv in
/-- Witness for the amended C5: in `ex5w` the value "A" occurs in both
rows, and "g" is detected as groupable. -/
theorem claim_C5_witness : "g" ∈ detect_groupable_columns ex5w :=
  claim_C5_amended ex5w "g" (by decide) (by decide) (by decide) (by decide) (by decide)
    (by decide) (by decide)

theorem readCsvAux_error_iff (p : Enc → Option Table) :
    ∀ l : List Enc,
      readCsvAux p l = Except.error CsvError.unsupportedEncoding ↔ ∀ e ∈ l, p e = none := by
  intro l
  induction l with
  | nil => simp [readCsvAux]
  | cons a rest ih =>
    simp only [readCsvAux]
    cases hpa : p a with
    | some t => simp [hpa]
    | none => simp [hpa, ih]

theorem readCsvAux_first (p : Enc → Option Table) :
    ∀ (l₁ : List Enc) (e : Enc) (l₂ : List Enc) (t : Table),
      (∀ a ∈ l₁, p a = none) → p e = some t →
      readCsvAux p (l₁ ++ e :: l₂) = Except.ok t := by
  intro l₁
  induction l₁ with
  | nil =>
    intro e l₂ t _ hpe
    simp [readCsvAux, hpe]
  | cons a rest ih =>
    intro e l₂ t h1 hpe
    have hpa : p a = none := h1 a (by simp)
    simp only [List.cons_append, readCsvAux, hpa]
    exact ih e l₂ t (fun x hx => h1 x (by simp [hx])) hpe

/-- C6: the loader tries the fixed ordered encoding list UTF-8,
UTF-8-with-signature, Latin-1, Windows-1250, Windows-1252; it raises
`UnsupportedEncoding` iff every encoding fails to parse, and whenever some
encoding succeeds after all earlier ones failed, it returns that
encoding's table. -/
theorem claim_C6_loader :
    (∀ p : Enc → Option Table,
        read_csv p = Except.error CsvError.unsupportedEncoding ↔
          ∀ e ∈ SUPPORTED_ENCODINGS, p e = none) ∧
    (∀ (p : Enc → Option Table) (l₁ : List Enc) (e : Enc) (l₂ : List Enc) (t : Table),
        SUPPORTED_ENCODINGS = l₁ ++ e :: l₂ →
        (∀ a ∈ l₁, p a = none) → p e = some t →
        read_csv p = Except.ok t) ∧
    SUPPORTED_ENCODINGS = [Enc.utf8, Enc.utf8sig, Enc.latin1, Enc.cp1250, Enc.cp1252] := by
  refine ⟨fun p => readCsvAux_error_iff p _, ?_, rfl⟩
  intro p l₁ e l₂ t hs h1 hpe
  rw [read_csv, hs]
  exact readCsvAux_first p l₁ e l₂ t h1 hpe

/-- Witness for C6: a parse function failing on every encoding makes the
loader raise `UnsupportedEncoding`. -/
theorem claim_C6_witness :
    read_csv (fun _ => none) = Except.error CsvError.unsupportedEncoding :=
  (claim_C6_loader.1 (fun _ => none)).mpr (fun _ _ => rfl)

theorem mem_insertSorted (a x : Cell) :
    ∀ l : List Cell, x ∈ insertSorted a l ↔ x = a ∨ x ∈ l := by
  intro l
  induction l with
  | nil => simp [insertSorted]
  | cons b rest ih =>
    simp only [insertSorted]
    by_cases hc : charListLe (cellStr a).data (cellStr b).data
    · rw [if_pos hc]
      simp [List.mem_cons]
    · rw [if_neg hc]
      simp only [List.mem_cons, ih]
      tauto

theorem mem_sortByKey (x : Cell) : ∀ l : List Cell, x ∈ sortByKey l ↔ x ∈ l := by
  intro l
  induction l with
  | nil => simp [sortByKey]
  | cons b rest ih =>
    show x ∈ insertSorted b (sortByKey rest) ↔ _
    rw [mem_insertSorted, ih]
    simp [List.mem_cons]

theorem mem_uniqueFirstAux (x : Cell) :
    ∀ (l seen : List Cell), x ∈ uniqueFirstAux seen l ↔ x ∈ l ∧ x ∉ seen := by
  intro l
  induction l with
  | nil => simp [uniqueFirstAux]
  | cons a rest ih =>
    intro seen
    simp only [uniqueFirstAux]
    by_cases ha : a ∈ seen
    · rw [if_pos ha, ih]
      constructor
      · rintro ⟨hr, hs⟩
        exact ⟨List.mem_cons_of_mem a hr, hs⟩
      · rintro ⟨hr, hs⟩
        rcases List.mem_cons.mp hr with rfl | hr
        · exact absurd ha hs
        · exact ⟨hr, hs⟩
    · rw [if_neg ha]
      simp only [List.mem_cons, ih]
      constructor
      · rintro (rfl | ⟨hr, hs⟩)
        · exact ⟨Or.inl rfl, ha⟩
        · exact ⟨Or.inr hr, fun hx => hs (Or.inr hx)⟩
      · rintro ⟨rfl | hr, hs⟩
        · exact Or.inl rfl
        · by_cases hxa : x = a
          · exact Or.inl hxa
          · exact Or.inr ⟨hr, fun hx => hx.elim hxa hs⟩

theorem mem_nonNullUnique (x : Cell) (col : List Cell) :
    x ∈ nonNullUnique col ↔ x ∈ col ∧ x.isMissing = false := by
  rw [nonNullUnique, mem_uniqueFirstAux]
  simp [List.mem_filter]

theorem calcGroupedAux_groupings_values (t : Table) (likert : List String) :
    ∀ (ps : List (ℕ × String)) (k : String) (d : GroupingDescriptor),
      (k, d) ∈ (calcGroupedAux t likert ps).2 →
      d.values = sortByKey (nonNullUnique (t.col d.column)) := by
  intro ps
  induction ps with
  | nil =>
    intro k d h
    simp [calcGroupedAux] at h
  | cons p rest ih =>
    intro k d h
    obtain ⟨idx, col_name⟩ := p
    simp only [calcGroupedAux] at h
    by_cases hmem : col_name ∈ t.header
    · rw [if_pos hmem] at h
      by_cases hemp : (nonNullUnique (t.col col_name)).isEmpty
      · rw [if_pos hemp] at h
        exact ih k d h
      · rw [if_neg hemp] at h
        rcases List.mem_cons.mp h with heq | htail
        · have hd := congrArg Prod.snd heq
          dsimp only at hd
          rw [hd]
        · exact ih k d htail
    · rw [if_neg hmem] at h
      exact ih k d h

unseal Rat.mul Rat.add Rat.sub Rat.inv in
/-- C7: group statistics partition rows by exact equality on the grouping
column — every entry of `calc_group_statistics` is exactly the question
records computed over the rows whose grouping cell equals the group value,
and is non-empty; a group value all of whose question records are empty is
omitted from the group-statistics map; every value of a Grouping
Descriptor's value list is a distinct non-missing value of its source
column (and conversely); and grouping `ex7` (column "g" = A, A, B over
Likert questions "q1", "q2") yields keys "A" and "B" with "A"'s records
computed from precisely the two rows equal to "A". -/
theorem claim_C7_partitioning :
    (∀ (t : Table) (gcol : String) (uv : List Cell) (likert : List String)
        (v : Cell) (s : List (String × StatRecord)),
        (v, s) ∈ calc_group_statistics t gcol uv likert →
        s = questionStats (t.filterByValue gcol v) likert ∧ s ≠ []) ∧
    (∀ (t : Table) (gcol : String) (uv : List Cell) (likert : List String) (v : Cell),
        v ∈ uv → questionStats (t.filterByValue gcol v) likert = [] →
        v ∉ (calc_group_statistics t gcol uv likert).map Prod.fst) ∧
    (∀ (t : Table) (likert sel : List String) (k : String) (d : GroupingDescriptor),
        (k, d) ∈ (calc_grouped_statistics t likert sel).2 →
        ∀ v : Cell, v ∈ d.values ↔ v ∈ t.col d.column ∧ v.isMissing = false) ∧
    (calc_grouped_statistics ex7 ["q1", "q2"] ["g"]).1 =
      [("group_0",
        [(Cell.str "A", questionStats (ex7.filterByValue "g" (Cell.str "A")) ["q1", "q2"]),
         (Cell.str "B", questionStats (ex7.filterByValue "g" (Cell.str "B")) ["q1", "q2"])])] := by
  refine ⟨?_, ?_, ?_, by decide⟩
  · intro t gcol uv likert v s h
    rw [calc_group_statistics] at h
    rcases List.mem_filterMap.mp h with ⟨u, _, hfu⟩
    by_cases he : (questionStats (t.filterByValue gcol u) likert).isEmpty
    · rw [if_pos he] at hfu
      exact absurd hfu (by simp)
    · rw [if_neg he] at hfu
      injection hfu with hfu
      obtain ⟨h1, h2⟩ := Prod.mk.injEq .. ▸ hfu
      subst h1
      subst h2
      exact ⟨rfl, by simpa [List.isEmpty_iff] using he⟩
  · intro t gcol uv likert v hv hemp hcontra
    rcases List.mem_map.mp hcontra with ⟨⟨v', s⟩, hmem, hfst⟩
    dsimp at hfst
    subst hfst
    rcases List.mem_filterMap.mp hmem with ⟨u, _, hfu⟩
    by_cases he : (questionStats (t.filterByValue gcol u) likert).isEmpty
    · rw [if_pos he] at hfu
      exact absurd hfu (by simp)
    · rw [if_neg he] at hfu
      injection hfu with hfu
      obtain ⟨h1, _⟩ := Prod.mk.injEq .. ▸ hfu
      subst h1
      rw [hemp] at he
      exact he rfl
  · intro t likert sel k d h
    intro v
    rw [calcGroupedAux_groupings_values t likert sel.enum k d h, mem_sortByKey,
      mem_nonNullUnique]

unseal Rat.mul Rat.add Rat.sub Rat.inv in
/-- Witness for C7: the entry for group value "A" in `ex7` is exactly the
question records over the rows whose "g" cell is "A", and is non-empty. -/
theorem claim_C7_witness :
    questionStats (ex7.filterByValue "g" (Cell.str "A")) ["q1", "q2"] =
      questionStats (ex7.filterByValue "g" (Cell.str "A")) ["q1", "q2"] ∧
    questionStats (ex7.filterByValue "g" (Cell.str "A")) ["q1", "q2"] ≠ [] :=
  claim_C7_partitioning.1 ex7 "g" [Cell.str "A", Cell.str "B"] ["q1", "q2"]
    (Cell.str "A") (questionStats (ex7.filterByValue "g" (Cell.str "A")) ["q1", "q2"])
    (by decide)

theorem calcGroupedAux_all_absent (t : Table) (likert : List String) :
    ∀ ps : List (ℕ × String), (∀ p ∈ ps, p.2 ∉ t.header) →
      calcGroupedAux t likert ps = ([], []) := by
  intro ps
  induction ps with
  | nil => intro _; rfl
  | cons p rest ih =>
    intro hp
    obtain ⟨idx, cn⟩ := p
    simp only [calcGroupedAux]
    rw [if_neg (hp (idx, cn) (List.mem_cons_self _ _))]
    exact ih fun q hq => hp q (List.mem_cons_of_mem _ hq)

/-- C8: a table with zero Likert columns yields an empty overall sequence
(no error is possible: the analysis functions are total, the loader being
the only fallible step); and when every requested grouping column is
absent from the table, the grouped and groupings maps are both empty —
reduced results, not exceptions. -/
theorem claim_C8_graceful :
    (∀ (t : Table) (sel : List String),
        find_likert_columns t = [] → (process t sel).overall = []) ∧
    (∀ (t : Table) (sel : List String),
        (∀ n ∈ sel, n ∉ t.header) →
        (process t sel).grouped = [] ∧ (process t sel).groupings = []) := by
  constructor
  · intro t sel h
    show questionStats t (find_likert_columns t) = []
    rw [h]
    rfl
  · intro t sel h
    have h2 : ∀ p ∈ sel.enum, (p : ℕ × String).2 ∉ t.header := by
      rw [List.forall_mem_enum]
      intro i hi
      exact h _ (List.getElem_mem hi)
    have hz := calcGroupedAux_all_absent t (find_likert_columns t) sel.enum h2
    constructor
    · show (calcGroupedAux t (find_likert_columns t) sel.enum).1 = []
      rw [hz]
    · show (calcGroupedAux t (find_likert_columns t) sel.enum).2 = []
      rw [hz]

/-- Witness for C8: `ex8` has no Likert column, and its analysis result
has an empty overall sequence. -/
theorem claim_C8_witness : (process ex8 []).overall = [] :=
  claim_C8_graceful.1 ex8 [] (by decide)

/-- C9: a column whose cells are all missing is never returned by
`detect_groupable_columns` (in the source the dtype of an all-NaN column
is numeric, so the categorical check already rejects it), and
`_is_unique_per_row` indeed classifies such a column as ID-like
(it returns true on an empty non-null list). -/
theorem claim_C9_all_missing (t : Table) (name : String)
    (h : ∀ c ∈ t.col name, c = Cell.missing) :
    name ∉ detect_groupable_columns t ∧ is_unique_per_row (t.col name) = true := by
  have hfilter : (t.col name).filter (fun c => !c.isMissing) = [] := by
    rw [List.filter_eq_nil_iff]
    intro c hc
    rw [h c hc]
    simp [Cell.isMissing]
  have hup : is_unique_per_row (t.col name) = true := by
    simp [is_unique_per_row, hfilter]
  refine ⟨?_, hup⟩
  intro hcontra
  rw [detect_groupable_columns] at hcontra
  by_cases hr : t.nrows ≤ 1
  · rw [if_pos hr] at hcontra
    exact absurd hcontra (List.not_mem_nil _)
  · rw [if_neg hr] at hcontra
    have hcond := (List.mem_filter.mp hcontra).2
    simp only [Bool.and_eq_true] at hcond
    have hcat := hcond.1.1.2
    rw [is_categorical_column] at hcat
    rcases List.any_eq_true.mp hcat with ⟨c, hc, hstr⟩
    rw [h c hc] at hstr
    exact absurd hstr (by simp [Cell.isStr])

/-- Witness for C9: the all-missing column "m" of `ex9`. -/
theorem claim_C9_witness :
    "m" ∉ detect_groupable_columns ex9 ∧ is_unique_per_row (ex9.col "m") = true :=
  claim_C9_all_missing ex9 "m" (by decide)

theorem nonNullUnique_isEmpty (col : List Cell) :
    (nonNullUnique col).isEmpty = (col.filter (fun c => !c.isMissing)).isEmpty := by
  rw [nonNullUnique]
  cases h : col.filter (fun c => !c.isMissing) with
  | nil => simp [uniqueFirstAux]
  | cons a l => simp [uniqueFirstAux]

theorem calcGroupedAux_keys (t : Table) (likert : List String) :
    ∀ ps : List (ℕ × String),
      (calcGroupedAux t likert ps).1.map Prod.fst =
        (ps.filter (fun p => decide (p.2 ∈ t.header) &&
            !((t.col p.2).filter (fun c => !c.isMissing)).isEmpty)).map
          (fun p => "group_" ++ toString p.1) ∧
      (calcGroupedAux t likert ps).2.map Prod.fst =
        (ps.filter (fun p => decide (p.2 ∈ t.header) &&
            !((t.col p.2).filter (fun c => !c.isMissing)).isEmpty)).map
          (fun p => "group_" ++ toString p.1) := by
  intro ps
  induction ps with
  | nil => exact ⟨rfl, rfl⟩
  | cons p rest ih =>
    obtain ⟨idx, cn⟩ := p
    simp only [calcGroupedAux, List.filter_cons]
    by_cases hmem : cn ∈ t.header
    · by_cases hemp : (nonNullUnique (t.col cn)).isEmpty
      · have hnn : ((t.col cn).filter (fun c => !c.isMissing)).isEmpty = true := by
          rw [← nonNullUnique_isEmpty]
          exact hemp
        rw [if_pos hmem, if_pos hemp]
        simp only [hnn, Bool.not_true, Bool.and_false]
        simpa using ih
      · have hnn : ((t.col cn).filter (fun c => !c.isMissing)).isEmpty = false := by
          rw [← nonNullUnique_isEmpty]
          exact Bool.not_eq_true _ ▸ hemp
        rw [if_pos hmem, if_neg hemp]
        simp only [hnn, Bool.not_false, Bool.and_true, hmem, decide_eq_true_eq, if_true]
        simp only [List.map_cons]
        exact ⟨by rw [ih.1], by rw [ih.2]⟩
    · rw [if_neg hmem]
      have hcond : (decide (cn ∈ t.header) &&
          !((t.col cn).filter (fun c => !c.isMissing)).isEmpty) = false := by
        simp [hmem]
      simp only [hcond]
      simpa using ih

/-- C10: the grouped map and the groupings map always carry exactly the
same keys, in the same order, and those keys are precisely
`"group_" ++ idx` for the positions `idx` of the selected list whose
named column exists in the table and has at least one non-missing value
(skipped positions leave gaps in the numbering). -/
theorem claim_C10_key_sync :
    ∀ (t : Table) (likert_columns sel : List String),
      (calc_grouped_statistics t likert_columns sel).1.map Prod.fst =
        (calc_grouped_statistics t likert_columns sel).2.map Prod.fst ∧
      (calc_grouped_statistics t likert_columns sel).2.map Prod.fst =
        (sel.enum.filter (fun p => decide (p.2 ∈ t.header) &&
            !((t.col p.2).filter (fun c => !c.isMissing)).isEmpty)).map
          (fun p => "group_" ++ toString p.1) := by
  intro t likert sel
  obtain ⟨h1, h2⟩ := calcGroupedAux_keys t likert sel.enum
  exact ⟨h1.trans h2.symm, h2⟩

/-- Witness for C2: a column holding the single value 6 is not Likert. -/
theorem claim_C2_witness : is_likert_column [Cell.num 6] = false :=
  claim_C2_likert_iff.2.1 [Cell.num 6] (List.mem_cons_self _ _)
